import Mathlib

/-!
Verification of the GO-ontology closure component of `GOdata.py`.

The Python structures are shallowly embedded as follows: Python dicts become
insertion-ordered association lists (`List (String × α)`) with `lookupd` and
`setd` as lookup and assignment, Python sets of strings become duplicate-free
lists compared up to membership, the lazy generator `traverseDepthFirst`
becomes a fuel-bounded worklist function (`none` stands for a `KeyError` or a
diverging traversal), and exceptions become `Except` errors.
-/

namespace GOdata

/-- Python dict lookup `d[k]`, with `none` in place of `KeyError`. -/
def lookupd {α : Type} : List (String × α) → String → Option α
  | [], _ => none
  | (k1, v) :: rest, k => if k1 = k then some v else lookupd rest k

/-- Python dict assignment `d[k] = v`: replace the first binding in place when
the key is present, append the binding otherwise. -/
def setd {α : Type} : List (String × α) → String → α → List (String × α)
  | [], k, v => [(k, v)]
  | (k1, v1) :: rest, k, v =>
      if k1 = k then (k1, v) :: rest else (k1, v1) :: setd rest k v

/-- Python `d.setdefault(k, v)`. -/
def setdefaultd {α : Type} (d : List (String × α)) (k : String) (v : α) :
    List (String × α) :=
  match lookupd d k with
  | some _ => d
  | none => d ++ [(k, v)]

/-- Python `s.add(x)` on a set modelled as a duplicate-free list. -/
def addElem (l : List String) (x : String) : List String :=
  if x ∈ l then l else l ++ [x]

theorem mem_addElem (l : List String) (x y : String) :
    y ∈ addElem l x ↔ y ∈ l ∨ y = x := by
  by_cases hx : x ∈ l
  · rw [addElem, if_pos hx]
    constructor
    · exact Or.inl
    · rintro (h | rfl)
      · exact h
      · exact hx
  · rw [addElem, if_neg hx]
    simp [List.mem_append]

theorem lookupd_setd {α : Type} (d : List (String × α)) (k k2 : String) (v : α) :
    lookupd (setd d k v) k2 = if k = k2 then some v else lookupd d k2 := by
  induction d with
  | nil => simp [setd, lookupd]
  | cons e rest ih =>
      obtain ⟨k1, v1⟩ := e
      by_cases h1 : k1 = k
      · subst h1
        by_cases h2 : k1 = k2 <;> simp [setd, lookupd, h2]
      · by_cases h2 : k1 = k2
        · subst h2
          have hkk : ¬ k = k1 := fun hh => h1 hh.symm
          simp [setd, lookupd, h1, hkk]
        · simp [setd, lookupd, h1, h2, ih]

theorem lookupd_mem {α : Type} {d : List (String × α)} {k : String} {v : α}
    (h : lookupd d k = some v) : (k, v) ∈ d := by
  induction d with
  | nil => simp [lookupd] at h
  | cons e rest ih =>
      obtain ⟨k1, v1⟩ := e
      by_cases h1 : k1 = k
      · subst h1
        rw [lookupd, if_pos rfl] at h
        obtain rfl : v1 = v := by injection h
        exact List.mem_cons_self _ _
      · rw [lookupd, if_neg h1] at h
        exact List.mem_cons_of_mem _ (ih h)

theorem lookupd_isSome_of_mem {α : Type} {d : List (String × α)} {k : String}
    {v : α} (h : (k, v) ∈ d) : (lookupd d k).isSome := by
  induction d with
  | nil => cases h
  | cons e rest ih =>
      obtain ⟨k1, v1⟩ := e
      by_cases h1 : k1 = k
      · simp [lookupd, h1]
      · rcases List.mem_cons.mp h with h2 | h2
        · rw [Prod.mk.injEq] at h2
          exact absurd h2.1.symm h1
        · rw [lookupd, if_neg h1]
          exact ih h2

/-- The upward traversal `GOspecs.traverseDepthFirst`, embedded with an explicit
worklist and a fuel bound: `traverseList pd n l` is the concatenation of the
depth-first ancestor sequences of the terms of `l`, or `none` when a term key
is missing from `pd` (Python `KeyError`) or the fuel runs out (the Python
generator diverges on a cyclic parent graph). -/
def traverseList (pd : List (String × List String)) :
    Nat → List String → Option (List String)
  | _, [] => some []
  | 0, _ :: _ => none
  | n + 1, t :: rest =>
      (lookupd pd t).bind fun ps =>
        (traverseList pd n ps).bind fun l1 =>
          (traverseList pd n rest).map fun l2 => t :: (l1 ++ l2)

/-- The traversal `GOspecs.traverseDepthFirst` started at a single term. -/
def traverseDepthFirst (pd : List (String × List String)) (n : Nat)
    (t : String) : Option (List String) :=
  traverseList pd n [t]

/-- Inversion and introduction for a successful traversal step. -/
theorem traverseList_cons_iff {pd : List (String × List String)} {n : Nat}
    {t : String} {rest r : List String} :
    traverseList pd (n + 1) (t :: rest) = some r ↔
      ∃ ps l1 l2, lookupd pd t = some ps ∧ traverseList pd n ps = some l1 ∧
        traverseList pd n rest = some l2 ∧ r = t :: (l1 ++ l2) := by
  rw [traverseList]
  cases hlk : lookupd pd t with
  | none => simp
  | some ps =>
      cases h1 : traverseList pd n ps with
      | none => simp [h1]
      | some l1 =>
          cases h2 : traverseList pd n rest with
          | none => simp [h1, h2]
          | some l2 => simp [h1, h2, eq_comm]

theorem traverseList_mono {pd : List (String × List String)} :
    ∀ {n : Nat} {l r : List String},
      traverseList pd n l = some r → traverseList pd (n + 1) l = some r := by
  intro n
  induction n with
  | zero =>
      intro l r h
      match l with
      | [] => simpa [traverseList] using h
      | t :: rest => simp [traverseList] at h
  | succ n ih =>
      intro l r h
      match l with
      | [] => simpa [traverseList] using h
      | t :: rest =>
          obtain ⟨ps, l1, l2, hlk, h1, h2, rfl⟩ := traverseList_cons_iff.mp h
          exact traverseList_cons_iff.mpr ⟨ps, l1, l2, hlk, ih h1, ih h2, rfl⟩

theorem traverseList_le {pd : List (String × List String)} {n m : Nat}
    {l r : List String} (hnm : n ≤ m) (h : traverseList pd n l = some r) :
    traverseList pd m l = some r := by
  induction hnm with
  | refl => exact h
  | step _ ih => exact traverseList_mono ih

/-- Reachability `Anc pd t a`: term `a` is reachable from `t` by zero or more upward parent
edges, every visited term having an entry in `pd`. These are exactly the terms
that the depth-first traversal started at `t` yields. -/
inductive Anc (pd : List (String × List String)) : String → String → Prop where
  | refl (t : String) (ps : List String) (h : lookupd pd t = some ps) :
      Anc pd t t
  | step (t : String) (ps : List String) (p a : String)
      (h : lookupd pd t = some ps) (hp : p ∈ ps) (ha : Anc pd p a) : Anc pd t a

theorem anc_iff {pd : List (String × List String)} {t a : String}
    {ps : List String} (h : lookupd pd t = some ps) :
    Anc pd t a ↔ a = t ∨ ∃ p ∈ ps, Anc pd p a := by
  constructor
  · intro han
    cases han with
    | refl _ ps2 h2 => exact Or.inl rfl
    | step _ ps2 p _ h2 hp hpa =>
        rw [h] at h2
        obtain rfl : ps = ps2 := by injection h2
        exact Or.inr ⟨p, hp, hpa⟩
  · rintro (rfl | ⟨p, hp, ha⟩)
    · exact Anc.refl _ ps h
    · exact Anc.step t ps p a h hp ha

theorem anc_lookup_isSome {pd : List (String × List String)} {t a : String}
    (h : Anc pd t a) : (lookupd pd a).isSome := by
  induction h with
  | refl _ ps h => simp [h]
  | step _ ps p _ h hp hpa ih => exact ih

/-- Membership in a successful traversal output is exactly upward reachability. -/
theorem mem_traverseList {pd : List (String × List String)} :
    ∀ {n : Nat} {l r : List String}, traverseList pd n l = some r →
      ∀ a, a ∈ r ↔ ∃ t ∈ l, Anc pd t a := by
  intro n
  induction n with
  | zero =>
      intro l r h a
      match l with
      | [] =>
          rw [traverseList] at h
          obtain rfl : ([] : List String) = r := by injection h
          simp
      | t :: rest => simp [traverseList] at h
  | succ n ih =>
      intro l r h a
      match l with
      | [] =>
          rw [traverseList] at h
          obtain rfl : ([] : List String) = r := by injection h
          simp
      | t :: rest =>
          obtain ⟨ps, l1, l2, hlk, h1, h2, rfl⟩ := traverseList_cons_iff.mp h
          have e1 := ih h1 a
          have e2 := ih h2 a
          have et : Anc pd t a ↔ a = t ∨ ∃ p ∈ ps, Anc pd p a :=
            anc_iff hlk
          simp only [List.mem_cons, List.mem_append, e1, e2]
          constructor
          · rintro (rfl | ⟨p, hp, hpa⟩ | ⟨t2, ht2, hta⟩)
            · exact ⟨_, Or.inl rfl, et.mpr (Or.inl rfl)⟩
            · exact ⟨t, Or.inl rfl, et.mpr (Or.inr ⟨p, hp, hpa⟩)⟩
            · exact ⟨t2, Or.inr ht2, hta⟩
          · rintro ⟨t2, rfl | ht2, hta⟩
            · rcases et.mp hta with rfl | ⟨p, hp, hpa⟩
              · exact Or.inl rfl
              · exact Or.inr (Or.inl ⟨p, hp, hpa⟩)
            · exact Or.inr (Or.inr ⟨t2, ht2, hta⟩)

theorem traverseList_head {pd : List (String × List String)} {n : Nat}
    {t : String} {rest r : List String}
    (h : traverseList pd n (t :: rest) = some r) : ∃ l1, r = t :: l1 := by
  match n with
  | 0 => simp [traverseList] at h
  | n + 1 =>
      obtain ⟨ps, l1, l2, hlk, h1, h2, rfl⟩ := traverseList_cons_iff.mp h
      exact ⟨l1 ++ l2, rfl⟩

theorem traverseList_nil (pd : List (String × List String)) (n : Nat) :
    traverseList pd n [] = some [] := by
  cases n <;> rfl

/-- Acyclicity of a parent mapping, witnessed by a rank function that strictly
drops along every parent edge (every finite DAG admits one). -/
abbrev RankedDict (pd : List (String × List String)) (rank : String → Nat) :
    Prop :=
  ∀ e ∈ pd, ∀ p ∈ e.2, rank p < rank e.1

/-- Every parent mentioned in `pd` is itself a key of `pd`. -/
abbrev ClosedDict (pd : List (String × List String)) : Prop :=
  ∀ e ∈ pd, ∀ p ∈ e.2, (lookupd pd p).isSome

theorem traverseList_append {pd : List (String × List String)} :
    ∀ {l1 r1 l2 r2 : List String},
      (∃ n, traverseList pd n l1 = some r1) →
      (∃ n, traverseList pd n l2 = some r2) →
      ∃ n, traverseList pd n (l1 ++ l2) = some (r1 ++ r2) := by
  intro l1
  induction l1 with
  | nil =>
      intro r1 l2 r2 h1 h2
      obtain ⟨n1, h1⟩ := h1
      rw [traverseList_nil] at h1
      obtain rfl : ([] : List String) = r1 := by injection h1
      simpa using h2
  | cons t rest ih =>
      intro r1 l2 r2 h1 h2
      obtain ⟨n1, h1⟩ := h1
      cases n1 with
      | zero => simp [traverseList] at h1
      | succ n1 =>
          obtain ⟨ps, la, lb, hlk, ha, hb, rfl⟩ := traverseList_cons_iff.mp h1
          obtain ⟨nr, hr⟩ := ih ⟨n1, hb⟩ h2
          refine ⟨max n1 nr + 1, traverseList_cons_iff.mpr
            ⟨ps, la, lb ++ r2, hlk, traverseList_le (Nat.le_max_left _ _) ha,
              traverseList_le (Nat.le_max_right _ _) hr, by simp⟩⟩

theorem exists_traverseList {pd : List (String × List String)} :
    ∀ l : List String, (∀ p ∈ l, ∃ r n, traverseList pd n [p] = some r) →
      ∃ r n, traverseList pd n l = some r := by
  intro l
  induction l with
  | nil => exact fun _ => ⟨[], 0, traverseList_nil pd 0⟩
  | cons p rest ih =>
      intro hall
      obtain ⟨rp, np, hp⟩ := hall p (List.mem_cons_self p rest)
      obtain ⟨rr, nr, hr⟩ := ih (fun q hq => hall q (List.mem_cons_of_mem _ hq))
      obtain ⟨n, hn⟩ := traverseList_append ⟨np, hp⟩ ⟨nr, hr⟩
      exact ⟨rp ++ rr, n, hn⟩

theorem traverseList_exists_of_ranked {pd : List (String × List String)}
    {rank : String → Nat} (hr : RankedDict pd rank) (hc : ClosedDict pd) :
    ∀ (k : Nat) (t : String), rank t < k → (lookupd pd t).isSome →
      ∃ r n, traverseList pd n [t] = some r := by
  intro k
  induction k with
  | zero => intro t hlt _; exact absurd hlt (Nat.not_lt_zero _)
  | succ k ih =>
      intro t hlt ht
      obtain ⟨ps, hps⟩ := Option.isSome_iff_exists.mp ht
      have hmem := lookupd_mem hps
      have hstep : ∀ p ∈ ps, ∃ r n, traverseList pd n [p] = some r := by
        intro p hp
        have h1 : rank p < rank t := hr (t, ps) hmem p hp
        have h2 : (lookupd pd p).isSome := hc (t, ps) hmem p hp
        exact ih p (Nat.lt_of_lt_of_le h1 (Nat.lt_succ_iff.mp hlt)) h2
      obtain ⟨r2, n2, h2⟩ := exists_traverseList ps hstep
      exact ⟨t :: (r2 ++ []), n2 + 1, traverseList_cons_iff.mpr
        ⟨ps, r2, [], hps, h2, traverseList_nil pd n2, rfl⟩⟩

/-- The upward depth-first traversal of `t` terminates: for some fuel it
returns a sequence that starts with `t` itself and contains exactly the
upward-reachable terms (with the duplicates that convergent paths produce,
in the depth-first order fixed by the definition of `traverseList`). -/
def TraversalTerminates (pd : List (String × List String)) (t : String) :
    Prop :=
  ∃ n r, traverseDepthFirst pd n t = some r ∧ r.head? = some t ∧
    ∀ a, a ∈ r ↔ Anc pd t a

/-- The class attribute `GOspecs.namespaces`. -/
def namespaces : List String := ["GO:0005575", "GO:0003674", "GO:0008150"]

/-- The class-level `GOspecs.namespaceSets` container: one set of directly
used GO terms per namespace root, each set modelled as a duplicate-free list. -/
structure NSSets where
  cc : List String
  mf : List String
  bp : List String
deriving DecidableEq, Repr

/-- The initial (class-definition) value of `GOspecs.namespaceSets`. -/
def nsEmpty : NSSets := ⟨[], [], []⟩

/-- Read the set a namespace root key maps to (empty for a non-root key). -/
def nsGet (ns : NSSets) (r : String) : List String :=
  if r = "GO:0005575" then ns.cc
  else if r = "GO:0003674" then ns.mf
  else if r = "GO:0008150" then ns.bp
  else []

/-- The update `self.namespaceSets[ancestor].add(GOterm)`. -/
def nsAdd (ns : NSSets) (a x : String) : NSSets :=
  if a = "GO:0005575" then { ns with cc := addElem ns.cc x }
  else if a = "GO:0003674" then { ns with mf := addElem ns.mf x }
  else if a = "GO:0008150" then { ns with bp := addElem ns.bp x }
  else ns

/-- One `self.specs[ancestor].add(gene)` update, the `KeyError` branch
creating a fresh singleton set. -/
def specsAdd (sp : List (String × List String)) (a g : String) :
    List (String × List String) :=
  setd sp a (addElem ((lookupd sp a).getD []) g)

/-- The body of the closure loop for one yielded ancestor: record the gene
under the ancestor and, when the ancestor is one of the three namespace
roots, record the (canonicalized) association term in the namespace
partition. -/
def addAncestor (t g : String)
    (acc : List (String × List String) × NSSets) (a : String) :
    List (String × List String) × NSSets :=
  (specsAdd acc.1 a g, if a ∈ namespaces then nsAdd acc.2 a t else acc.2)

/-- Process one association pair of the constructor loop: traverse upward from
its term and fold every yielded ancestor into the accumulators (`none` when
the traversal diverges or hits a missing key). -/
def procPair (pd : List (String × List String)) (fuel : Nat)
    (acc : List (String × List String) × NSSets) (pr : String × String) :
    Option (List (String × List String) × NSSets) :=
  (traverseDepthFirst pd fuel pr.1).map
    (fun anc => anc.foldl (fun a0 x => addAncestor pr.1 pr.2 a0 x) acc)

/-- The `for (GOterm, gene) in self.associations` loop of the constructor. -/
def buildSpecs (pd : List (String × List String)) (fuel : Nat) :
    List (String × String) → List (String × List String) × NSSets →
      Option (List (String × List String) × NSSets)
  | [], acc => some acc
  | pr :: rest, acc =>
      (procPair pd fuel acc pr).bind fun acc2 => buildSpecs pd fuel rest acc2

/-- The call `canonid.get(GO, GO)`: canonicalize one term key through the alias
mapping. -/
def canonize (canonid : List (String × String)) (t : String) : String :=
  (lookupd canonid t).getD t

/-- The in-place canonicalization of the association pairs performed by the
constructor. -/
def canonAssocs (canonid : List (String × String))
    (associations : List (String × String)) : List (String × String) :=
  associations.map (fun pr => (canonize canonid pr.1, pr.2))

/-- The parent dictionary after the constructor forces the three namespace
roots to be present with no parent. -/
def pdWithRoots (parentDict : List (String × List String)) :
    List (String × List String) :=
  namespaces.foldl (fun d t => setd d t []) parentDict

/-- The canonicalized association term keys missing from the parent
dictionary: the payload of the raised `GOException` (a Python set, modelled
as a list up to membership). -/
def offendingOf (canonid : List (String × String))
    (associations : List (String × String))
    (parentDict : List (String × List String)) : List String :=
  ((canonAssocs canonid associations).map Prod.fst).filter
    (fun t => (lookupd (pdWithRoots parentDict) t).isNone)

inductive InitErr where
  | goException : List String → InitErr
  | traverseFail : InitErr
deriving DecidableEq, Repr

/-- The attributes a successful `GOspecs.__init__` leaves on the instance
(and, for `namespaceSets`, on the class). -/
structure GOState where
  parentDict : List (String × List String)
  associations : List (String × String)
  names : List (String × String)
  version : List String
  specs : List (String × List String)
  namespaceSets : NSSets
  slim : List String
deriving DecidableEq, Repr

/-- The constructor `GOspecs.__init__`, embedded as a function of its inputs
and of the current value `ns0` of the class-level `namespaceSets` container.
Python sets are modelled as duplicate-free lists up to membership (so the
final `list(set(...))` re-listing of each gene set, a membership identity, is
dropped), and `fuel` bounds the upward traversals: a cyclic parent graph or a
missing ancestor key, which make the Python loop diverge or raise `KeyError`,
give `InitErr.traverseFail`. -/
def GOspecs_init (fuel : Nat) (associations : List (String × String))
    (parentDict : List (String × List String))
    (canonid : List (String × String)) (names : List (String × String))
    (slim : List String) (assoVersion : List String)
    (OBOversion : List String) (ns0 : NSSets) : Except InitErr GOState :=
  if offendingOf canonid associations parentDict = [] then
    match buildSpecs (pdWithRoots parentDict) fuel
        (canonAssocs canonid associations) ([], ns0) with
    | none => Except.error InitErr.traverseFail
    | some (sp, ns) =>
        Except.ok {
          parentDict := pdWithRoots parentDict
          associations := canonAssocs canonid associations
          names := names
          version := assoVersion ++ OBOversion
          specs := sp
          namespaceSets := ns
          slim := slim.filter
            (fun t => (lookupd sp t).isSome && !(namespaces.contains t)) }
  else
    Except.error (InitErr.goException (offendingOf canonid associations parentDict))

instance {ε α : Type} [DecidableEq ε] [DecidableEq α] :
    DecidableEq (Except ε α) := fun a b =>
  match a, b with
  | Except.ok x, Except.ok y =>
      if h : x = y then Decidable.isTrue (by rw [h])
      else Decidable.isFalse (fun hc => h (Except.ok.inj hc))
  | Except.error x, Except.error y =>
      if h : x = y then Decidable.isTrue (by rw [h])
      else Decidable.isFalse (fun hc => h (Except.error.inj hc))
  | Except.ok _, Except.error _ =>
      Decidable.isFalse (fun hc => Except.noConfusion hc)
  | Except.error _, Except.ok _ =>
      Decidable.isFalse (fun hc => Except.noConfusion hc)

/-- Gene `G` is recorded under term `T` in a specification index. -/
def specsMem (sp : List (String × List String)) (T G : String) : Prop :=
  ∃ gs, lookupd sp T = some gs ∧ G ∈ gs

/-- Some association pair (after canonicalization) contributes gene `G` to the
index entry of term `T`: its gene is `G` and its term reaches `T` upward. -/
def ContributesTo (pd : List (String × List String))
    (assocs : List (String × String)) (T G : String) : Prop :=
  ∃ pr ∈ assocs, pr.2 = G ∧ Anc pd pr.1 T

/-- The loop body of `GOspecs.childrenOf` over the keys of `specs`; the
lookup `self.parentDict[GOterm]` raises `KeyError` (`none`) when a key is
missing. -/
def childrenOfGo (pd : List (String × List String)) (GOlist : List String) :
    List (String × List String) → Option (List String)
  | [] => some []
  | (t, _) :: rest =>
      (lookupd pd t).bind fun ps =>
        (childrenOfGo pd GOlist rest).map fun r =>
          if ps.any (fun p => GOlist.contains p) then t :: r else r

/-- The method `GOspecs.childrenOf` on a list argument (the Python set/list re-listing is
a membership identity and is dropped). -/
def childrenOf (st : GOState) (GOlist : List String) : Option (List String) :=
  childrenOfGo st.parentDict GOlist st.specs

inductive PyError where
  | attributeError : PyError
  | keyErrorOrNoTermination : PyError
deriving DecidableEq, Repr

/-- The method `GOspecs.parentsIn` as written in the source: it computes
`set(self.traverseDepthFirst(GOterm))` and then calls the method `intersect`
on that set. Python sets have no method `intersect` (the set method is
`intersection`), so whenever the traversal succeeds the call raises
`AttributeError` instead of returning the intersection with `termset`. -/
def parentsIn (st : GOState) (fuel : Nat) (GOterm : String)
    (termset : List String) : Except PyError (List String) :=
  match traverseDepthFirst st.parentDict fuel GOterm with
  | none => Except.error PyError.keyErrorOrNoTermination
  | some _ => Except.error PyError.attributeError

theorem specsMem_specsAdd (sp : List (String × List String)) (a g T G : String) :
    specsMem (specsAdd sp a g) T G ↔ specsMem sp T G ∨ (T = a ∧ G = g) := by
  unfold specsMem specsAdd
  rw [lookupd_setd]
  by_cases hta : a = T
  · subst hta
    cases hsp : lookupd sp a with
    | none => simp [hsp, mem_addElem]
    | some gs => simp [hsp, mem_addElem]
  · have h2 : ¬ T = a := fun h => hta h.symm
    simp [hta, h2]

theorem lookupd_specsAdd_isSome (sp : List (String × List String))
    (a g T : String) :
    (lookupd (specsAdd sp a g) T).isSome ↔ T = a ∨ (lookupd sp T).isSome := by
  unfold specsAdd
  rw [lookupd_setd]
  by_cases hta : a = T
  · subst hta; simp
  · have h2 : ¬ T = a := fun h => hta h.symm
    simp [hta, h2]

theorem mem_nsGet_step (ns : NSSets) (a t r x : String) :
    x ∈ nsGet (if a ∈ namespaces then nsAdd ns a t else ns) r ↔
      x ∈ nsGet ns r ∨ (r = a ∧ r ∈ namespaces ∧ x = t) := by
  by_cases ha : a ∈ namespaces
  · rw [if_pos ha]
    have ha2 : a = "GO:0005575" ∨ a = "GO:0003674" ∨ a = "GO:0008150" := by
      simpa [namespaces] using ha
    unfold nsAdd nsGet
    rcases ha2 with rfl | rfl | rfl
    · by_cases h1 : r = "GO:0005575"
      · subst h1; simp [namespaces, mem_addElem]
      · simp [h1]
    · by_cases h1 : r = "GO:0003674"
      · subst h1; simp [namespaces, mem_addElem]
      · simp [h1]
    · by_cases h1 : r = "GO:0008150"
      · subst h1; simp [namespaces, mem_addElem]
      · simp [h1]
  · rw [if_neg ha]
    by_cases hra : r = a
    · subst hra; simp [ha]
    · simp [hra]

theorem foldl_addAncestor_specsMem (t g : String) :
    ∀ (anc : List String) (acc : List (String × List String) × NSSets)
      (T G : String),
      specsMem ((anc.foldl (fun a0 x => addAncestor t g a0 x) acc).1) T G ↔
        specsMem acc.1 T G ∨ (T ∈ anc ∧ G = g) := by
  intro anc
  induction anc with
  | nil => intro acc T G; simp
  | cons a rest ih =>
      intro acc T G
      rw [List.foldl_cons, ih]
      have hfst : (addAncestor t g acc a).1 = specsAdd acc.1 a g := rfl
      rw [hfst, specsMem_specsAdd]
      simp only [List.mem_cons]
      tauto

theorem foldl_addAncestor_key (t g : String) :
    ∀ (anc : List String) (acc : List (String × List String) × NSSets)
      (T : String),
      (lookupd ((anc.foldl (fun a0 x => addAncestor t g a0 x) acc).1) T).isSome ↔
        (lookupd acc.1 T).isSome ∨ T ∈ anc := by
  intro anc
  induction anc with
  | nil => intro acc T; simp
  | cons a rest ih =>
      intro acc T
      rw [List.foldl_cons, ih]
      have hfst : (addAncestor t g acc a).1 = specsAdd acc.1 a g := rfl
      rw [hfst, lookupd_specsAdd_isSome]
      simp only [List.mem_cons]
      tauto

theorem foldl_addAncestor_ns (t g : String) :
    ∀ (anc : List String) (acc : List (String × List String) × NSSets)
      (r x : String),
      x ∈ nsGet ((anc.foldl (fun a0 x => addAncestor t g a0 x) acc).2) r ↔
        x ∈ nsGet acc.2 r ∨ (r ∈ anc ∧ r ∈ namespaces ∧ x = t) := by
  intro anc
  induction anc with
  | nil => intro acc r x; simp
  | cons a rest ih =>
      intro acc r x
      rw [List.foldl_cons, ih]
      have hsnd : (addAncestor t g acc a).2 =
          if a ∈ namespaces then nsAdd acc.2 a t else acc.2 := rfl
      rw [hsnd, mem_nsGet_step]
      simp only [List.mem_cons]
      tauto

theorem buildSpecs_specsMem {pd : List (String × List String)} {fuel : Nat} :
    ∀ {pairs : List (String × String)}
      {acc : List (String × List String) × NSSets}
      {sp : List (String × List String)} {ns : NSSets},
      buildSpecs pd fuel pairs acc = some (sp, ns) →
      ∀ T G, specsMem sp T G ↔
        specsMem acc.1 T G ∨ ∃ pr ∈ pairs, pr.2 = G ∧ Anc pd pr.1 T := by
  intro pairs
  induction pairs with
  | nil =>
      intro acc sp ns h T G
      rw [buildSpecs] at h
      obtain rfl : acc = (sp, ns) := by injection h
      simp
  | cons pr rest ih =>
      intro acc sp ns h T G
      rw [buildSpecs] at h
      rcases hp : procPair pd fuel acc pr with _ | acc2 <;> rw [hp] at h
      · cases h
      · rw [Option.some_bind] at h
        rw [ih h T G]
        unfold procPair at hp
        rcases ht : traverseDepthFirst pd fuel pr.1 with _ | anc <;>
          rw [ht] at hp
        · cases hp
        · obtain rfl : anc.foldl (fun a0 x => addAncestor pr.1 pr.2 a0 x) acc = acc2 := by
            simpa using hp
          rw [foldl_addAncestor_specsMem]
          have hanc : ∀ a, a ∈ anc ↔ Anc pd pr.1 a := by
            intro a
            have := mem_traverseList (show traverseList pd fuel [pr.1] = some anc from ht) a
            simpa using this
          simp only [List.exists_mem_cons_iff, hanc]
          tauto

theorem buildSpecs_key {pd : List (String × List String)} {fuel : Nat} :
    ∀ {pairs : List (String × String)}
      {acc : List (String × List String) × NSSets}
      {sp : List (String × List String)} {ns : NSSets},
      buildSpecs pd fuel pairs acc = some (sp, ns) →
      ∀ T, (lookupd sp T).isSome ↔
        (lookupd acc.1 T).isSome ∨ ∃ pr ∈ pairs, Anc pd pr.1 T := by
  intro pairs
  induction pairs with
  | nil =>
      intro acc sp ns h T
      rw [buildSpecs] at h
      obtain rfl : acc = (sp, ns) := by injection h
      simp
  | cons pr rest ih =>
      intro acc sp ns h T
      rw [buildSpecs] at h
      rcases hp : procPair pd fuel acc pr with _ | acc2 <;> rw [hp] at h
      · cases h
      · rw [Option.some_bind] at h
        rw [ih h T]
        unfold procPair at hp
        rcases ht : traverseDepthFirst pd fuel pr.1 with _ | anc <;>
          rw [ht] at hp
        · cases hp
        · obtain rfl :
              anc.foldl (fun a0 x => addAncestor pr.1 pr.2 a0 x) acc = acc2 := by
            simpa using hp
          rw [foldl_addAncestor_key]
          have hanc : ∀ a, a ∈ anc ↔ Anc pd pr.1 a := by
            intro a
            have := mem_traverseList (show traverseList pd fuel [pr.1] = some anc from ht) a
            simpa using this
          simp only [List.exists_mem_cons_iff, hanc]
          tauto

theorem buildSpecs_ns {pd : List (String × List String)} {fuel : Nat} :
    ∀ {pairs : List (String × String)}
      {acc : List (String × List String) × NSSets}
      {sp : List (String × List String)} {ns : NSSets},
      buildSpecs pd fuel pairs acc = some (sp, ns) →
      ∀ r x, x ∈ nsGet ns r ↔
        x ∈ nsGet acc.2 r ∨
          (r ∈ namespaces ∧ ∃ pr ∈ pairs, pr.1 = x ∧ Anc pd pr.1 r) := by
  intro pairs
  induction pairs with
  | nil =>
      intro acc sp ns h r x
      rw [buildSpecs] at h
      obtain rfl : acc = (sp, ns) := by injection h
      simp
  | cons pr rest ih =>
      intro acc sp ns h r x
      rw [buildSpecs] at h
      rcases hp : procPair pd fuel acc pr with _ | acc2 <;> rw [hp] at h
      · cases h
      · rw [Option.some_bind] at h
        rw [ih h r x]
        unfold procPair at hp
        rcases ht : traverseDepthFirst pd fuel pr.1 with _ | anc <;>
          rw [ht] at hp
        · cases hp
        · obtain rfl :
              anc.foldl (fun a0 x => addAncestor pr.1 pr.2 a0 x) acc = acc2 := by
            simpa using hp
          rw [foldl_addAncestor_ns]
          have hanc : ∀ a, a ∈ anc ↔ Anc pd pr.1 a := by
            intro a
            have := mem_traverseList (show traverseList pd fuel [pr.1] = some anc from ht) a
            simpa using this
          simp only [List.exists_mem_cons_iff, hanc]
          tauto

/-- What a successful run of the constructor determines about the resulting
state. -/
theorem init_ok {fuel : Nat} {assoc : List (String × String)}
    {pd : List (String × List String)} {cid names : List (String × String)}
    {slim av ov : List String} {ns0 : NSSets} {st : GOState}
    (h : GOspecs_init fuel assoc pd cid names slim av ov ns0 = Except.ok st) :
    offendingOf cid assoc pd = [] ∧
    buildSpecs (pdWithRoots pd) fuel (canonAssocs cid assoc) ([], ns0) =
      some (st.specs, st.namespaceSets) ∧
    st.parentDict = pdWithRoots pd ∧
    st.associations = canonAssocs cid assoc ∧
    st.slim = slim.filter
      (fun t => (lookupd st.specs t).isSome && !(namespaces.contains t)) := by
  unfold GOspecs_init at h
  by_cases hoff : offendingOf cid assoc pd = []
  · rw [if_pos hoff] at h
    rcases hb : buildSpecs (pdWithRoots pd) fuel (canonAssocs cid assoc)
        ([], ns0) with _ | ⟨sp, ns⟩ <;> rw [hb] at h
    · cases h
    · simp only [] at h
      obtain rfl : ({ parentDict := pdWithRoots pd
                      associations := canonAssocs cid assoc
                      names := names
                      version := av ++ ov
                      specs := sp
                      namespaceSets := ns
                      slim := slim.filter
                        (fun t => (lookupd sp t).isSome &&
                          !(namespaces.contains t)) } : GOState) = st := by
        injection h
      exact ⟨hoff, rfl, rfl, rfl, rfl⟩
  · rw [if_neg hoff] at h
    cases h

/-- Python `str.rstrip()`: drop trailing whitespace. -/
def rstrip (s : String) : String :=
  ⟨(s.data.reverse.dropWhile Char.isWhitespace).reverse⟩

/-- The parsing state of `OBOXMLHandler` (the `source`-section version
bookkeeping, which touches none of the returned structures, is omitted; the
initial `self.id = None` is modelled by an arbitrary initial string, since
every term record opens with its `id` element). -/
structure HState where
  id : String
  read_to : Bool
  parentDict : List (String × List String)
  canonid : List (String × String)
  names : List (String × String)
  slim : List String
deriving DecidableEq, Repr

/-- One `OBOXMLHandler.endElement(name)` call, given the character data
accumulated for the closing element: first the `read_to` reset on a closing
`relationship`, then the per-tag dispatch table. -/
def step (s : HState) (e : String × String) : HState :=
  let s1 := if e.1 = "relationship" then { s with read_to := false } else s
  if e.1 = "id" then { s1 with id := rstrip e.2 }
  else if e.1 = "name" then
    { s1 with names := setdefaultd s1.names s1.id (rstrip e.2) }
  else if e.1 = "alt_id" then
    { s1 with canonid := setd s1.canonid (rstrip e.2) s1.id }
  else if e.1 = "is_obsolete" then
    { s1 with parentDict := setd s1.parentDict s1.id [] }
  else if e.1 = "subset" then
    (if e.2 = "goslim_generic" then { s1 with slim := s1.slim ++ [s1.id] }
     else s1)
  else if e.1 = "is_a" then
    { s1 with parentDict :=
        (setd s1.parentDict s1.id
          ((lookupd s1.parentDict s1.id).getD [] ++ [rstrip e.2])) }
  else if e.1 = "type" then
    (if e.2 = "part_of" then { s1 with read_to := true } else s1)
  else if e.1 = "to" then
    (if s1.read_to then
      { s1 with parentDict :=
          (setd s1.parentDict s1.id
            ((lookupd s1.parentDict s1.id).getD [] ++ [rstrip e.2])) }
     else s1)
  else s1

/-- Run the handler over a stream of `endElement` events. -/
def processEvents (s : HState) (evs : List (String × String)) : HState :=
  evs.foldl step s

/-- The `endElement` events a list of `relationship` elements produces: inside
each element its `type` and `to` children close first, then the
`relationship` element itself. -/
def relEvents : List (String × String) → List (String × String)
  | [] => []
  | (ty, tgt) :: rest =>
      ("type", ty) :: ("to", tgt) :: ("relationship", "") :: relEvents rest

/-- A term record of the OBO-XML input: primary id, display name, alternate
ids, subset memberships, `is_a` parent references, typed relationship
references, and the obsolete marker. -/
structure TermRecord where
  id : String
  name : String
  alt_ids : List String
  subsets : List String
  is_a : List String
  rels : List (String × String)
  obsolete : Bool
deriving DecidableEq, Repr

/-- The `endElement` event stream of one term record, in the canonical OBO-XML
field order the parser assumes (its docstring: one `id` subnode, first, and
the `is_obsolete` element last). -/
def recordEvents (r : TermRecord) : List (String × String) :=
  ("id", r.id) :: ("name", r.name) ::
    (r.alt_ids.map (fun a => ("alt_id", a)) ++
      r.subsets.map (fun sub => ("subset", sub)) ++
      r.is_a.map (fun p => ("is_a", p)) ++
      relEvents r.rels ++
      (if r.obsolete then [("is_obsolete", "1")] else []))

theorem step_id_ev (s : HState) (d : String) :
    step s ("id", d) = { s with id := rstrip d } := by
  simp [step]

theorem step_name_ev (s : HState) (d : String) :
    step s ("name", d) =
      { s with names := setdefaultd s.names s.id (rstrip d) } := by
  simp [step]

theorem step_alt_id_ev (s : HState) (d : String) :
    step s ("alt_id", d) =
      { s with canonid := setd s.canonid (rstrip d) s.id } := by
  simp [step]

theorem step_is_obsolete_ev (s : HState) (d : String) :
    step s ("is_obsolete", d) =
      { s with parentDict := setd s.parentDict s.id [] } := by
  simp [step]

theorem step_subset_ev (s : HState) (d : String) :
    step s ("subset", d) =
      (if d = "goslim_generic" then { s with slim := s.slim ++ [s.id] }
       else s) := by
  by_cases h : d = "goslim_generic" <;> simp [step, h]

theorem step_is_a_ev (s : HState) (d : String) :
    step s ("is_a", d) =
      { s with parentDict :=
          (setd s.parentDict s.id
            ((lookupd s.parentDict s.id).getD [] ++ [rstrip d])) } := by
  simp [step]

theorem step_type_ev (s : HState) (ty : String) :
    step s ("type", ty) =
      (if ty = "part_of" then { s with read_to := true } else s) := by
  by_cases h : ty = "part_of" <;> simp [step, h]

theorem step_to_ev (s : HState) (tgt : String) :
    step s ("to", tgt) =
      (if s.read_to then
        { s with parentDict :=
            (setd s.parentDict s.id
              ((lookupd s.parentDict s.id).getD [] ++ [rstrip tgt])) }
       else s) := by
  by_cases h : s.read_to <;> simp [step, h]

theorem step_relationship_ev (s : HState) (d : String) :
    step s ("relationship", d) = { s with read_to := false } := by
  simp [step]

theorem step_keeps_id_known (s : HState) (e : String × String)
    (h : e.1 = "name" ∨ e.1 = "alt_id" ∨ e.1 = "subset" ∨ e.1 = "is_a" ∨
      e.1 = "type" ∨ e.1 = "to" ∨ e.1 = "relationship") :
    (step s e).id = s.id := by
  obtain ⟨t, d⟩ := e
  rcases h with h | h | h | h | h | h | h <;> subst h <;>
    simp [step_name_ev, step_alt_id_ev, step_subset_ev, step_is_a_ev,
      step_type_ev, step_to_ev, step_relationship_ev] <;>
    split_ifs <;> rfl

theorem processEvents_append (s : HState) (l1 l2 : List (String × String)) :
    processEvents s (l1 ++ l2) = processEvents (processEvents s l1) l2 :=
  List.foldl_append step s l1 l2

theorem processEvents_keeps_id (s : HState) :
    ∀ evs : List (String × String),
      (∀ e ∈ evs, e.1 = "name" ∨ e.1 = "alt_id" ∨ e.1 = "subset" ∨
        e.1 = "is_a" ∨ e.1 = "type" ∨ e.1 = "to" ∨ e.1 = "relationship") →
      (processEvents s evs).id = s.id := by
  intro evs
  induction evs generalizing s with
  | nil => intro _; rfl
  | cons e rest ih =>
      intro hall
      have h1 : (processEvents s (e :: rest)) = processEvents (step s e) rest :=
        rfl
      rw [h1, ih (step s e) (fun e2 he2 => hall e2 (List.mem_cons_of_mem _ he2))]
      exact step_keeps_id_known s e (hall e (List.mem_cons_self _ _))

theorem mem_relEvents_fst :
    ∀ {rels : List (String × String)} {e : String × String},
      e ∈ relEvents rels →
      e.1 = "type" ∨ e.1 = "to" ∨ e.1 = "relationship" := by
  intro rels
  induction rels with
  | nil => intro e he; cases he
  | cons rel rest ih =>
      intro e he
      obtain ⟨ty, tgt⟩ := rel
      rw [relEvents] at he
      rcases List.mem_cons.mp he with rfl | he2
      · exact Or.inl rfl
      · rcases List.mem_cons.mp he2 with rfl | he3
        · exact Or.inr (Or.inl rfl)
        · rcases List.mem_cons.mp he3 with rfl | he4
          · exact Or.inr (Or.inr rfl)
          · exact ih he4

theorem step_neutral (s : HState) (e : String × String)
    (h : e.1 = "name" ∨ e.1 = "alt_id" ∨ e.1 = "subset") :
    (step s e).parentDict = s.parentDict ∧ (step s e).id = s.id ∧
      (step s e).read_to = s.read_to := by
  obtain ⟨t, d⟩ := e
  rcases h with h | h | h <;> subst h <;> simp [step] <;> split_ifs <;> simp

theorem processEvents_neutral (s : HState) :
    ∀ evs : List (String × String),
      (∀ e ∈ evs, e.1 = "name" ∨ e.1 = "alt_id" ∨ e.1 = "subset") →
      (processEvents s evs).parentDict = s.parentDict ∧
        (processEvents s evs).id = s.id ∧
        (processEvents s evs).read_to = s.read_to := by
  intro evs
  induction evs generalizing s with
  | nil => intro _; exact ⟨rfl, rfl, rfl⟩
  | cons e rest ih =>
      intro hall
      have h1 : (processEvents s (e :: rest)) = processEvents (step s e) rest :=
        rfl
      obtain ⟨e1, e2, e3⟩ := step_neutral s e (hall e (List.mem_cons_self _ _))
      obtain ⟨i1, i2, i3⟩ :=
        ih (step s e) (fun e2 he2 => hall e2 (List.mem_cons_of_mem _ he2))
      exact ⟨by rw [h1, i1, e1], by rw [h1, i2, e2], by rw [h1, i3, e3]⟩

theorem isSome_eq_some_getD {α : Type} {o : Option (List α)} (h : o.isSome) :
    o = some (o.getD []) := by
  cases o with
  | none => simp at h
  | some v => rfl

/-- The right-stripped targets of the `part_of` relationships of a record. -/
def partOfTargets (rels : List (String × String)) : List String :=
  (rels.filter (fun e => e.1 == "part_of")).map (fun e => rstrip e.2)

theorem partOfTargets_cons (ty tgt : String)
    (rest : List (String × String)) :
    partOfTargets ((ty, tgt) :: rest) =
      (if ty = "part_of" then [rstrip tgt] else []) ++ partOfTargets rest := by
  by_cases h : ty = "part_of" <;> simp [partOfTargets, List.filter_cons, h]

theorem processEvents_isa (isas : List String) :
    ∀ s : HState,
      (processEvents s (isas.map (fun p => ("is_a", p)))).id = s.id ∧
      (processEvents s (isas.map (fun p => ("is_a", p)))).read_to = s.read_to ∧
      (lookupd (processEvents s (isas.map (fun p => ("is_a", p)))).parentDict
          s.id).getD [] =
        (lookupd s.parentDict s.id).getD [] ++ isas.map rstrip ∧
      ((lookupd (processEvents s (isas.map (fun p => ("is_a", p)))).parentDict
          s.id).isSome ↔
        (lookupd s.parentDict s.id).isSome ∨ isas ≠ []) := by
  induction isas with
  | nil => intro s; simp [processEvents]
  | cons p rest ih =>
      intro s
      rw [List.map_cons]
      have h0 : processEvents s
            (("is_a", p) :: rest.map (fun p => ("is_a", p))) =
          processEvents (step s ("is_a", p))
            (rest.map (fun p => ("is_a", p))) := rfl
      rw [h0, step_is_a_ev]
      obtain ⟨i1, i2, i3, i4⟩ := ih
        { s with parentDict :=
            (setd s.parentDict s.id
              ((lookupd s.parentDict s.id).getD [] ++ [rstrip p])) }
      have hv : lookupd
          (setd s.parentDict s.id
            ((lookupd s.parentDict s.id).getD [] ++ [rstrip p])) s.id =
          some ((lookupd s.parentDict s.id).getD [] ++ [rstrip p]) := by
        rw [lookupd_setd, if_pos rfl]
      refine ⟨by rw [i1], by rw [i2], ?_, ?_⟩
      · rw [i3]
        rw [show ({ s with parentDict :=
            (setd s.parentDict s.id
              ((lookupd s.parentDict s.id).getD [] ++ [rstrip p])) } :
              HState).parentDict =
            (setd s.parentDict s.id
              ((lookupd s.parentDict s.id).getD [] ++ [rstrip p])) from rfl]
        rw [hv]
        simp
      · rw [i4]
        rw [show ({ s with parentDict :=
            (setd s.parentDict s.id
              ((lookupd s.parentDict s.id).getD [] ++ [rstrip p])) } :
              HState).parentDict =
            (setd s.parentDict s.id
              ((lookupd s.parentDict s.id).getD [] ++ [rstrip p])) from rfl]
        rw [hv]
        simp

theorem rel_triple (s : HState) (ty tgt : String) (hrt : s.read_to = false) :
    (step (step (step s ("type", ty)) ("to", tgt)) ("relationship", "")).id =
        s.id ∧
    (step (step (step s ("type", ty)) ("to", tgt))
        ("relationship", "")).read_to = false ∧
    (step (step (step s ("type", ty)) ("to", tgt))
        ("relationship", "")).parentDict =
      (if ty = "part_of" then
        (setd s.parentDict s.id
          ((lookupd s.parentDict s.id).getD [] ++ [rstrip tgt]))
       else s.parentDict) := by
  by_cases hty : ty = "part_of" <;>
    simp [step_type_ev, step_to_ev, step_relationship_ev, hty, hrt]

theorem processEvents_rels (rels : List (String × String)) :
    ∀ s : HState, s.read_to = false →
      (processEvents s (relEvents rels)).id = s.id ∧
      (processEvents s (relEvents rels)).read_to = false ∧
      (lookupd (processEvents s (relEvents rels)).parentDict s.id).getD [] =
        (lookupd s.parentDict s.id).getD [] ++ partOfTargets rels ∧
      ((lookupd (processEvents s (relEvents rels)).parentDict s.id).isSome ↔
        (lookupd s.parentDict s.id).isSome ∨ partOfTargets rels ≠ []) := by
  induction rels with
  | nil =>
      intro s hrt
      simp [relEvents, processEvents, partOfTargets, hrt]
  | cons rel rest ih =>
      obtain ⟨ty, tgt⟩ := rel
      intro s hrt
      rw [relEvents]
      have h0 : processEvents s
            (("type", ty) :: ("to", tgt) :: ("relationship", "") ::
              relEvents rest) =
          processEvents
            (step (step (step s ("type", ty)) ("to", tgt))
              ("relationship", "")) (relEvents rest) := rfl
      rw [h0]
      obtain ⟨t1, t2, t3⟩ := rel_triple s ty tgt hrt
      obtain ⟨i1, i2, i3, i4⟩ := ih
        (step (step (step s ("type", ty)) ("to", tgt)) ("relationship", "")) t2
      rw [t1] at i1 i3 i4
      rw [partOfTargets_cons]
      by_cases hty : ty = "part_of"
      · rw [if_pos hty] at t3
        have hv : lookupd
            (step (step (step s ("type", ty)) ("to", tgt))
              ("relationship", "")).parentDict s.id =
            some ((lookupd s.parentDict s.id).getD [] ++ [rstrip tgt]) := by
          rw [t3, lookupd_setd, if_pos rfl]
        refine ⟨i1, i2, ?_, ?_⟩
        · rw [i3, hv]
          simp [hty]
        · rw [i4, hv]
          simp [hty]
      · rw [if_neg hty] at t3
        refine ⟨i1, i2, ?_, ?_⟩
        · rw [i3, t3]
          simp [hty]
        · rw [i4, t3]
          simp [hty]

theorem childrenOfGo_isSome {pd : List (String × List String)}
    {GOlist : List String} :
    ∀ {sp : List (String × List String)},
      (∀ e ∈ sp, (lookupd pd e.1).isSome) →
      (childrenOfGo pd GOlist sp).isSome := by
  intro sp
  induction sp with
  | nil => intro _; simp [childrenOfGo]
  | cons e rest ih =>
      intro hall
      obtain ⟨t, gs⟩ := e
      obtain ⟨ps, hps⟩ := Option.isSome_iff_exists.mp
        (hall (t, gs) (List.mem_cons_self _ _))
      have hrest := ih (fun e2 he2 => hall e2 (List.mem_cons_of_mem _ he2))
      obtain ⟨rr, hrr⟩ := Option.isSome_iff_exists.mp hrest
      rw [childrenOfGo, hps, hrr]
      simp

/-- C1: after a successful construction of the specification index, gene `G`
is in the index entry of term `T` iff some canonicalized association pair has
gene `G` and a term from whose upward traversal `T` is yielded, i.e. of which
`T` is an ancestor via parent edges (`T` equal to the term included). -/
theorem C1_closure_correctness {fuel : Nat} {assoc : List (String × String)}
    {pd : List (String × List String)} {cid names : List (String × String)}
    {slim av ov : List String} {ns0 : NSSets} {st : GOState}
    (h : GOspecs_init fuel assoc pd cid names slim av ov ns0 = Except.ok st)
    (T G : String) :
    specsMem st.specs T G ↔
      ContributesTo (pdWithRoots pd) (canonAssocs cid assoc) T G := by
  obtain ⟨-, hbuild, -, -, -⟩ := init_ok h
  simp only [ContributesTo]
  rw [buildSpecs_specsMem hbuild T G]
  simp [specsMem, lookupd]

def stW1 : GOState :=
  { parentDict := [("A", []), ("GO:0005575", []), ("GO:0003674", []),
      ("GO:0008150", [])]
    associations := [("A", "g")]
    names := []
    version := []
    specs := [("A", ["g"])]
    namespaceSets := nsEmpty
    slim := [] }

/-- Concrete instantiation of C1. -/
theorem C1_closure_correctness_witness :
    GOspecs_init 3 [("A", "g")] [("A", [])] [] [] [] [] [] nsEmpty =
      Except.ok stW1 ∧
    (specsMem stW1.specs "A" "g" ↔
      ContributesTo (pdWithRoots [("A", [])]) (canonAssocs [] [("A", "g")])
        "A" "g") := by
  have h : GOspecs_init 3 [("A", "g")] [("A", [])] [] [] [] [] [] nsEmpty =
      Except.ok stW1 := by decide
  exact ⟨h, C1_closure_correctness h "A" "g"⟩

/-- C2: if after canonicalization some association term key is missing from
the parent-edge mapping (the mapping as held by the construction, with the
three namespace roots always inserted), the constructor raises `GOException`
carrying exactly the set of offending keys, and no state is produced. -/
theorem C2_consistency_error {fuel : Nat} {assoc : List (String × String)}
    {pd : List (String × List String)} {cid names : List (String × String)}
    {slim av ov : List String} {ns0 : NSSets} (k k2 : String)
    (hk : k ∈ (canonAssocs cid assoc).map Prod.fst)
    (hmiss : lookupd (pdWithRoots pd) k = none) :
    GOspecs_init fuel assoc pd cid names slim av ov ns0 =
      Except.error (InitErr.goException (offendingOf cid assoc pd)) ∧
    (k2 ∈ offendingOf cid assoc pd ↔
      (k2 ∈ (canonAssocs cid assoc).map Prod.fst ∧
        lookupd (pdWithRoots pd) k2 = none)) := by
  have hkoff : k ∈ offendingOf cid assoc pd := by
    rw [offendingOf, List.mem_filter]
    exact ⟨hk, by simp [hmiss]⟩
  have hne : ¬ offendingOf cid assoc pd = [] := by
    intro hcon
    rw [hcon] at hkoff
    cases hkoff
  refine ⟨?_, ?_⟩
  · rw [GOspecs_init, if_neg hne]
  · rw [offendingOf, List.mem_filter]
    simp [Option.isNone_iff_eq_none]

/-- Concrete instantiation of C2. -/
theorem C2_consistency_error_witness :
    GOspecs_init 1 [("X", "g")] [] [] [] [] [] [] nsEmpty =
      Except.error (InitErr.goException (offendingOf [] [("X", "g")] [])) ∧
    ("X" ∈ offendingOf [] [("X", "g")] [] ↔
      ("X" ∈ (canonAssocs [] [("X", "g")]).map Prod.fst ∧
        lookupd (pdWithRoots []) "X" = none)) := by
  exact C2_consistency_error "X" "X" (by decide) (by decide)

/-- C3: on an acyclic parent-edge mapping (acyclicity witnessed by a rank
function) all of whose mentioned parents are themselves keys, the upward
depth-first traversal from any key terminates, yielding a finite sequence
that begins with the term itself and contains exactly its transitive parents
(itself included), in depth-first order with possible duplicates. -/
theorem C3_traversal_terminates (pd : List (String × List String))
    (rank : String → Nat) (t : String) (hr : RankedDict pd rank)
    (hc : ClosedDict pd) (ht : (lookupd pd t).isSome) :
    TraversalTerminates pd t := by
  obtain ⟨r, n, h⟩ :=
    traverseList_exists_of_ranked hr hc (rank t + 1) t (Nat.lt_succ_self _) ht
  obtain ⟨l1, rfl⟩ := traverseList_head h
  refine ⟨n, t :: l1, h, rfl, ?_⟩
  intro a
  have hm := mem_traverseList h a
  simpa using hm

def pdW3 : List (String × List String) := [("B", ["A"]), ("A", [])]

def rankW3 : String → Nat := fun s => if s = "A" then 0 else 1

/-- Concrete instantiation of C3. -/
theorem C3_traversal_terminates_witness :
    RankedDict pdW3 rankW3 ∧ ClosedDict pdW3 ∧
      (lookupd pdW3 "B").isSome ∧ TraversalTerminates pdW3 "B" :=
  ⟨by decide, by decide, by decide,
    C3_traversal_terminates pdW3 rankW3 "B" (by decide) (by decide)
      (by decide)⟩

/-- C6: after a successful construction the slim set is exactly the input
slim list restricted to keys of the specification index and purged of the
three namespace roots; in particular it contains no root and no key absent
from the index. -/
theorem C6_slim_filtering {fuel : Nat} {assoc : List (String × String)}
    {pd : List (String × List String)} {cid names : List (String × String)}
    {slim av ov : List String} {ns0 : NSSets} {st : GOState}
    (h : GOspecs_init fuel assoc pd cid names slim av ov ns0 = Except.ok st)
    (t : String) :
    t ∈ st.slim ↔
      (t ∈ slim ∧ (lookupd st.specs t).isSome ∧ t ∉ namespaces) := by
  obtain ⟨-, -, -, -, hslim⟩ := init_ok h
  rw [hslim, List.mem_filter]
  simp

def stW2 : GOState :=
  { parentDict := [("B", ["GO:0008150"]), ("GO:0005575", []),
      ("GO:0003674", []), ("GO:0008150", [])]
    associations := [("B", "g1")]
    names := []
    version := []
    specs := [("B", ["g1"]), ("GO:0008150", ["g1"])]
    namespaceSets := { cc := [], mf := [], bp := ["Z", "B"] }
    slim := ["B"] }

/-- Concrete instantiation of C6: the namespace root is annotated yet excluded
from the slim set. -/
theorem C6_slim_filtering_witness :
    GOspecs_init 3 [("B", "g1")] [("B", ["GO:0008150"])] [] []
        ["B", "GO:0008150", "Z"] [] [] (NSSets.mk [] [] ["Z"]) =
      Except.ok stW2 ∧
    ("GO:0008150" ∈ stW2.slim ↔
      ("GO:0008150" ∈ ["B", "GO:0008150", "Z"] ∧
        (lookupd stW2.specs "GO:0008150").isSome ∧
        "GO:0008150" ∉ namespaces)) := by
  have h : GOspecs_init 3 [("B", "g1")] [("B", ["GO:0008150"])] [] []
      ["B", "GO:0008150", "Z"] [] [] (NSSets.mk [] [] ["Z"]) =
      Except.ok stW2 := by decide
  exact ⟨h, C6_slim_filtering h "GO:0008150"⟩

/-- C9 (implicit): after a successful construction every key of the
specification index is a key of the stored parent-edge mapping, so the
parent lookup `childrenOf` performs on every index key never fails. -/
theorem C9_childrenOf_lookups_safe {fuel : Nat}
    {assoc : List (String × String)} {pd : List (String × List String)}
    {cid names : List (String × String)} {slim av ov : List String}
    {ns0 : NSSets} {st : GOState}
    (h : GOspecs_init fuel assoc pd cid names slim av ov ns0 = Except.ok st)
    (T : String) (hT : (lookupd st.specs T).isSome) (GOlist : List String) :
    (lookupd st.parentDict T).isSome ∧ (childrenOf st GOlist).isSome := by
  obtain ⟨-, hbuild, hpd, -, -⟩ := init_ok h
  have hkeys : ∀ T2, (lookupd st.specs T2).isSome →
      (lookupd st.parentDict T2).isSome := by
    intro T2 hT2
    rw [buildSpecs_key hbuild T2] at hT2
    rcases hT2 with h1 | ⟨pr, hpr, hanc⟩
    · simp [lookupd] at h1
    · rw [hpd]
      exact anc_lookup_isSome hanc
  refine ⟨hkeys T hT, ?_⟩
  exact childrenOfGo_isSome
    (fun e he => hkeys e.1 (lookupd_isSome_of_mem he))

/-- Concrete instantiation of C9. -/
theorem C9_childrenOf_lookups_safe_witness :
    GOspecs_init 3 [("A", "g")] [("A", [])] [] [] [] [] [] nsEmpty =
      Except.ok stW1 ∧ (lookupd stW1.specs "A").isSome ∧
    ((lookupd stW1.parentDict "A").isSome ∧
      (childrenOf stW1 ["A"]).isSome) := by
  have h : GOspecs_init 3 [("A", "g")] [("A", [])] [] [] [] [] [] nsEmpty =
      Except.ok stW1 := by decide
  exact ⟨h, by decide, C9_childrenOf_lookups_safe h "A" (by decide) ["A"]⟩

/-- C10 (implicit): `namespaceSets` is a class-level container shared by all
constructions; threading it explicitly, the partition after a construction
seeded with the current container equals, root by root, the union of the
container before the construction and of the contribution the same
construction makes from an empty container — so each construction mutates
the partition every earlier instance observes. -/
theorem C10_namespace_partition_union {fuel : Nat}
    {assoc : List (String × String)} {pd : List (String × List String)}
    {cid names : List (String × String)} {slim av ov : List String}
    {ns0 : NSSets} {st st0 : GOState}
    (h : GOspecs_init fuel assoc pd cid names slim av ov ns0 = Except.ok st)
    (h0 : GOspecs_init fuel assoc pd cid names slim av ov nsEmpty =
      Except.ok st0)
    (r x : String) :
    x ∈ nsGet st.namespaceSets r ↔
      x ∈ nsGet ns0 r ∨ x ∈ nsGet st0.namespaceSets r := by
  obtain ⟨-, hb, -, -, -⟩ := init_ok h
  obtain ⟨-, hb0, -, -, -⟩ := init_ok h0
  rw [buildSpecs_ns hb r x, buildSpecs_ns hb0 r x]
  have hempty : nsGet nsEmpty r = [] := by
    rw [nsEmpty, nsGet]
    split_ifs <;> rfl
  simp [hempty]

def stW3 : GOState :=
  { parentDict := [("B", ["GO:0008150"]), ("GO:0005575", []),
      ("GO:0003674", []), ("GO:0008150", [])]
    associations := [("B", "g1")]
    names := []
    version := []
    specs := [("B", ["g1"]), ("GO:0008150", ["g1"])]
    namespaceSets := { cc := [], mf := [], bp := ["B"] }
    slim := ["B"] }

/-- Concrete instantiation of C10: a second construction seeded with a
container already holding `Z` under the process root. -/
theorem C10_namespace_partition_union_witness :
    GOspecs_init 3 [("B", "g1")] [("B", ["GO:0008150"])] [] []
        ["B", "GO:0008150", "Z"] [] [] (NSSets.mk [] [] ["Z"]) =
      Except.ok stW2 ∧
    GOspecs_init 3 [("B", "g1")] [("B", ["GO:0008150"])] [] []
        ["B", "GO:0008150", "Z"] [] [] nsEmpty = Except.ok stW3 ∧
    ("B" ∈ nsGet stW2.namespaceSets "GO:0008150" ↔
      "B" ∈ nsGet (NSSets.mk [] [] ["Z"]) "GO:0008150" ∨
        "B" ∈ nsGet stW3.namespaceSets "GO:0008150") := by
  have h : GOspecs_init 3 [("B", "g1")] [("B", ["GO:0008150"])] [] []
      ["B", "GO:0008150", "Z"] [] [] (NSSets.mk [] [] ["Z"]) =
      Except.ok stW2 := by decide
  have h0 : GOspecs_init 3 [("B", "g1")] [("B", ["GO:0008150"])] [] []
      ["B", "GO:0008150", "Z"] [] [] nsEmpty = Except.ok stW3 := by decide
  exact ⟨h, h0, C10_namespace_partition_union h h0 "GO:0008150" "B"⟩

theorem processEvents_singleton (x : HState) (e : String × String) :
    processEvents x [e] = step x e := rfl

theorem step_is_obsolete_pd (x : HState) (d : String) :
    (step x ("is_obsolete", d)).parentDict = setd x.parentDict x.id [] := by
  rw [step_is_obsolete_ev]

theorem traverseDF_nil_parents {pd : List (String × List String)} {t : String}
    (h : lookupd pd t = some []) (n : Nat) :
    traverseDepthFirst pd (n + 1) t = some [t] := by
  rw [traverseDepthFirst]
  exact traverseList_cons_iff.mpr
    ⟨[], [], [], h, traverseList_nil pd n, traverseList_nil pd n, rfl⟩

def stW4 : GOState :=
  { parentDict := [("GO:0008150", [])]
    associations := []
    names := []
    version := []
    specs := []
    namespaceSets := nsEmpty
    slim := [] }

/-- C4: the failing evaluation of `parentsIn`: on a state whose parent
mapping contains the queried term, with the term itself as candidate set, the
method raises `AttributeError` (the source calls the nonexistent set method
`intersect`) instead of returning the intersection of the ancestor set with
the candidate set. -/
theorem C4_parentsIn_attribute_error :
    parentsIn stW4 1 "GO:0008150" ["GO:0008150"] =
      Except.error PyError.attributeError := by
  decide

/-- C5: a term record carrying the obsolete marker (closing last, as the
parser assumes) gets the empty parent list whatever `is_a`/`part_of` edges
the record carries, hence the upward traversal from it yields the term alone
and an association pair on it updates no specification-index entry besides
its own. -/
theorem C5_obsolete_isolated (s : HState) (r : TermRecord)
    (hobs : r.obsolete = true) (fuel : Nat)
    (acc : List (String × List String) × NSSets) (g : String)
    (acc2 : List (String × List String) × NSSets)
    (hp : procPair (processEvents s (recordEvents r)).parentDict (fuel + 1)
        acc (rstrip r.id, g) = some acc2)
    (T : String) (hT : T ≠ rstrip r.id) :
    lookupd (processEvents s (recordEvents r)).parentDict (rstrip r.id) =
        some [] ∧
    traverseDepthFirst (processEvents s (recordEvents r)).parentDict
        (fuel + 1) (rstrip r.id) = some [rstrip r.id] ∧
    lookupd acc2.1 T = lookupd acc.1 T := by
  have hre : recordEvents r =
      (("id", r.id) :: ("name", r.name) ::
        (r.alt_ids.map (fun a => ("alt_id", a)) ++
          r.subsets.map (fun sub => ("subset", sub)) ++
          r.is_a.map (fun p => ("is_a", p)) ++
          relEvents r.rels)) ++ [("is_obsolete", "1")] := by
    simp [recordEvents, hobs]
  have htags : ∀ e ∈ ("name", r.name) ::
      (r.alt_ids.map (fun a => (("alt_id", a) : String × String)) ++
        r.subsets.map (fun sub => ("subset", sub)) ++
        r.is_a.map (fun p => ("is_a", p)) ++
        relEvents r.rels),
      e.1 = "name" ∨ e.1 = "alt_id" ∨ e.1 = "subset" ∨ e.1 = "is_a" ∨
        e.1 = "type" ∨ e.1 = "to" ∨ e.1 = "relationship" := by
    intro e he
    rcases List.mem_cons.mp he with rfl | he2
    · exact Or.inl rfl
    · simp only [List.mem_append] at he2
      rcases he2 with ((hA | hB) | hC) | hD
      · obtain ⟨a, -, rfl⟩ := List.mem_map.mp hA
        exact Or.inr (Or.inl rfl)
      · obtain ⟨a, -, rfl⟩ := List.mem_map.mp hB
        exact Or.inr (Or.inr (Or.inl rfl))
      · obtain ⟨a, -, rfl⟩ := List.mem_map.mp hC
        exact Or.inr (Or.inr (Or.inr (Or.inl rfl)))
      · rcases mem_relEvents_fst hD with h | h | h
        · exact Or.inr (Or.inr (Or.inr (Or.inr (Or.inl h))))
        · exact Or.inr (Or.inr (Or.inr (Or.inr (Or.inr (Or.inl h)))))
        · exact Or.inr (Or.inr (Or.inr (Or.inr (Or.inr (Or.inr h)))))
  have hid : (processEvents s (("id", r.id) :: ("name", r.name) ::
      (r.alt_ids.map (fun a => ("alt_id", a)) ++
        r.subsets.map (fun sub => ("subset", sub)) ++
        r.is_a.map (fun p => ("is_a", p)) ++
        relEvents r.rels))).id = rstrip r.id := by
    rw [show processEvents s (("id", r.id) :: ("name", r.name) ::
        (r.alt_ids.map (fun a => ("alt_id", a)) ++
          r.subsets.map (fun sub => ("subset", sub)) ++
          r.is_a.map (fun p => ("is_a", p)) ++
          relEvents r.rels)) =
        processEvents (step s ("id", r.id)) (("name", r.name) ::
          (r.alt_ids.map (fun a => ("alt_id", a)) ++
            r.subsets.map (fun sub => ("subset", sub)) ++
            r.is_a.map (fun p => ("is_a", p)) ++
            relEvents r.rels)) from rfl]
    rw [step_id_ev]
    exact processEvents_keeps_id _ _ htags
  have hc1 : lookupd (processEvents s (recordEvents r)).parentDict
      (rstrip r.id) = some [] := by
    rw [hre, processEvents_append, processEvents_singleton,
      step_is_obsolete_pd, hid, lookupd_setd, if_pos rfl]
  have hc2 := traverseDF_nil_parents hc1 fuel
  refine ⟨hc1, hc2, ?_⟩
  simp only [procPair] at hp
  rw [hc2] at hp
  simp only [Option.map_some', Option.some.injEq] at hp
  subst hp
  show lookupd (specsAdd acc.1 (rstrip r.id) g) T = lookupd acc.1 T
  rw [specsAdd, lookupd_setd, if_neg (fun hh => hT hh.symm)]

def hs0 : HState :=
  { id := "", read_to := false, parentDict := [], canonid := [], names := [],
    slim := [] }

def recW5 : TermRecord :=
  { id := "X", name := "x", alt_ids := [], subsets := [], is_a := ["P"],
    rels := [], obsolete := true }

/-- Concrete instantiation of C5: an obsolete record with an `is_a` edge. -/
theorem C5_obsolete_isolated_witness :
    recW5.obsolete = true ∧
    procPair (processEvents hs0 (recordEvents recW5)).parentDict (0 + 1)
        ([], nsEmpty) (rstrip recW5.id, "g") =
      some ([("X", ["g"])], nsEmpty) ∧
    ("P" : String) ≠ rstrip recW5.id ∧
    (lookupd (processEvents hs0 (recordEvents recW5)).parentDict
        (rstrip recW5.id) = some [] ∧
      traverseDepthFirst (processEvents hs0 (recordEvents recW5)).parentDict
        (0 + 1) (rstrip recW5.id) = some [rstrip recW5.id] ∧
      lookupd [("X", ["g"])] "P" = lookupd ([] : List (String × List String))
        "P") := by
  have hobs : recW5.obsolete = true := by decide
  have hp : procPair (processEvents hs0 (recordEvents recW5)).parentDict
      (0 + 1) ([], nsEmpty) (rstrip recW5.id, "g") =
      some ([("X", ["g"])], nsEmpty) := by decide
  have hT : ("P" : String) ≠ rstrip recW5.id := by decide
  exact ⟨hobs, hp, hT,
    C5_obsolete_isolated hs0 recW5 hobs 0 ([], nsEmpty) "g"
      ([("X", ["g"])], nsEmpty) hp "P" hT⟩

def cidW7 : List (String × String) := [("A", "B"), ("B", "C")]

def pdW7 : List (String × List String) := [("B", []), ("C", [])]

/-- C7 as stated is false when the canonical identifier an alias maps to is
itself an alias key: with aliases `A ↦ B` and `B ↦ C`, the association
`(A, g)` canonicalizes to `(B, g)` and indexes gene `g` under `B`, while the
claimed equivalent association `(B, g)` canonicalizes to `(C, g)` and leaves
no entry under `B`. -/
theorem C7_alias_chain_counterexample :
    lookupd cidW7 "A" = some "B" ∧
    (GOspecs_init 2 [("A", "g")] pdW7 cidW7 [] [] [] [] nsEmpty).map
        (fun st => lookupd st.specs "B") ≠
      (GOspecs_init 2 [("B", "g")] pdW7 cidW7 [] [] [] [] nsEmpty).map
        (fun st => lookupd st.specs "B") := by
  exact ⟨by decide, by decide⟩

/-- C7 amended: for an association pair whose term key `k` is an alternate
identifier with canonical identifier `c`, and provided `c` is itself
canonical (the alias mapping sends `c` to nothing or to itself), replacing
`k` by `c` in the pair leaves the entire construction — specification index
and namespace partition included — unchanged. -/
theorem C7_alias_transparency_amended (fuel : Nat)
    (pre post : List (String × String)) (k g c : String)
    (pd : List (String × List String)) (cid names : List (String × String))
    (slim av ov : List String) (ns0 : NSSets)
    (hk : lookupd cid k = some c) (hc : canonize cid c = c) :
    GOspecs_init fuel (pre ++ (k, g) :: post) pd cid names slim av ov ns0 =
      GOspecs_init fuel (pre ++ (c, g) :: post) pd cid names slim av ov
        ns0 := by
  have h1 : canonize cid k = c := by
    rw [canonize, hk]
    rfl
  have hca : canonAssocs cid (pre ++ (k, g) :: post) =
      canonAssocs cid (pre ++ (c, g) :: post) := by
    simp only [canonAssocs, List.map_append, List.map_cons]
    rw [h1, hc]
  have hoff : offendingOf cid (pre ++ (k, g) :: post) pd =
      offendingOf cid (pre ++ (c, g) :: post) pd := by
    rw [offendingOf, offendingOf, hca]
  rw [GOspecs_init, GOspecs_init, hca, hoff]

/-- Concrete instantiation of the amended C7. -/
theorem C7_alias_transparency_amended_witness :
    lookupd [("A", "B")] "A" = some "B" ∧
    canonize [("A", "B")] "B" = "B" ∧
    GOspecs_init 2 ([] ++ ("A", "g") :: []) [("B", [])] [("A", "B")] [] []
        [] [] nsEmpty =
      GOspecs_init 2 ([] ++ ("B", "g") :: []) [("B", [])] [("A", "B")] [] []
        [] [] nsEmpty := by
  exact ⟨by decide, by decide,
    C7_alias_transparency_amended 2 [] [] "A" "g" "B" [("B", [])]
      [("A", "B")] [] [] [] [] nsEmpty (by decide) (by decide)⟩

def hs8 : HState :=
  { id := "", read_to := false, parentDict := [], canonid := [], names := [],
    slim := [] }

def recW8 : TermRecord :=
  { id := "X", name := "x", alt_ids := [], subsets := [],
    is_a := ["P"], rels := [("part_of", "Q")], obsolete := true }

/-- C8 as stated is false on an obsolete record: the builder empties its
parent entry (the obsolete marker closes last), so the produced list is not
the concatenation of its `is_a` parent and `part_of` target. -/
theorem C8_obsolete_counterexample :
    lookupd (processEvents hs8 (recordEvents recW8)).parentDict
        (rstrip recW8.id) ≠
      some (recW8.is_a.map rstrip ++ partOfTargets recW8.rels) := by
  decide

/-- C8 amended: for a term record that does not carry the obsolete marker,
whose id has no preexisting parent entry, and that has at least one `is_a`
parent or `part_of` relationship, the parent list the builder produces is
the `is_a` parents followed by the `part_of` targets, `is_a` first. (An
obsolete record gets the empty list instead, and a parentless record
produces no entry at all.) -/
theorem C8_parent_concatenation_amended (s : HState) (r : TermRecord)
    (hobs : r.obsolete = false) (hrt : s.read_to = false)
    (hfresh : lookupd s.parentDict (rstrip r.id) = none)
    (hne : r.is_a.map rstrip ++ partOfTargets r.rels ≠ []) :
    lookupd (processEvents s (recordEvents r)).parentDict (rstrip r.id) =
      some (r.is_a.map rstrip ++ partOfTargets r.rels) := by
  have hre : recordEvents r =
      ((("id", r.id) :: ("name", r.name) ::
          (r.alt_ids.map (fun a => ("alt_id", a)) ++
            r.subsets.map (fun sub => ("subset", sub)))) ++
        r.is_a.map (fun p => ("is_a", p))) ++ relEvents r.rels := by
    simp [recordEvents, hobs]
  rw [hre, processEvents_append, processEvents_append]
  rw [show processEvents s (("id", r.id) :: ("name", r.name) ::
      (r.alt_ids.map (fun a => ("alt_id", a)) ++
        r.subsets.map (fun sub => ("subset", sub)))) =
      processEvents (step s ("id", r.id)) (("name", r.name) ::
        (r.alt_ids.map (fun a => ("alt_id", a)) ++
          r.subsets.map (fun sub => ("subset", sub)))) from rfl]
  have htags : ∀ e ∈ ("name", r.name) ::
      (r.alt_ids.map (fun a => (("alt_id", a) : String × String)) ++
        r.subsets.map (fun sub => ("subset", sub))),
      e.1 = "name" ∨ e.1 = "alt_id" ∨ e.1 = "subset" := by
    intro e he
    rcases List.mem_cons.mp he with rfl | he2
    · exact Or.inl rfl
    · rcases List.mem_append.mp he2 with hA | hB
      · obtain ⟨a, -, rfl⟩ := List.mem_map.mp hA
        exact Or.inr (Or.inl rfl)
      · obtain ⟨a, -, rfl⟩ := List.mem_map.mp hB
        exact Or.inr (Or.inr rfl)
  obtain ⟨n1, n2, n3⟩ := processEvents_neutral (step s ("id", r.id))
    (("name", r.name) ::
      (r.alt_ids.map (fun a => ("alt_id", a)) ++
        r.subsets.map (fun sub => ("subset", sub)))) htags
  rw [step_id_ev] at n1 n2 n3
  have n1' : (processEvents (step s ("id", r.id)) (("name", r.name) ::
      (r.alt_ids.map (fun a => ("alt_id", a)) ++
        r.subsets.map (fun sub => ("subset", sub))))).parentDict =
      s.parentDict := n1
  have n2' : (processEvents (step s ("id", r.id)) (("name", r.name) ::
      (r.alt_ids.map (fun a => ("alt_id", a)) ++
        r.subsets.map (fun sub => ("subset", sub))))).id = rstrip r.id := n2
  have n3' : (processEvents (step s ("id", r.id)) (("name", r.name) ::
      (r.alt_ids.map (fun a => ("alt_id", a)) ++
        r.subsets.map (fun sub => ("subset", sub))))).read_to = false :=
    n3.trans hrt
  obtain ⟨i1, i2, i3, i4⟩ := processEvents_isa r.is_a
    (processEvents (step s ("id", r.id)) (("name", r.name) ::
      (r.alt_ids.map (fun a => ("alt_id", a)) ++
        r.subsets.map (fun sub => ("subset", sub)))))
  rw [n2'] at i1 i3 i4
  rw [n1'] at i3 i4
  rw [hfresh] at i3 i4
  simp only [Option.getD_none, List.nil_append, Option.isSome_none,
    Bool.false_eq_true, false_or] at i3 i4
  have hrt2 : (processEvents (processEvents (step s ("id", r.id))
      (("name", r.name) ::
        (r.alt_ids.map (fun a => ("alt_id", a)) ++
          r.subsets.map (fun sub => ("subset", sub)))))
      (r.is_a.map (fun p => ("is_a", p)))).read_to = false := i2.trans n3'
  obtain ⟨j1, j2, j3, j4⟩ := processEvents_rels r.rels
    (processEvents (processEvents (step s ("id", r.id))
      (("name", r.name) ::
        (r.alt_ids.map (fun a => ("alt_id", a)) ++
          r.subsets.map (fun sub => ("subset", sub)))))
      (r.is_a.map (fun p => ("is_a", p)))) hrt2
  rw [i1] at j3 j4
  rw [i3] at j3
  rw [i4] at j4
  have hsome : (lookupd (processEvents (processEvents (processEvents
      (step s ("id", r.id)) (("name", r.name) ::
        (r.alt_ids.map (fun a => ("alt_id", a)) ++
          r.subsets.map (fun sub => ("subset", sub)))))
      (r.is_a.map (fun p => ("is_a", p)))) (relEvents r.rels)).parentDict
      (rstrip r.id)).isSome := by
    rw [j4]
    by_cases hisa : r.is_a = []
    · right
      intro hcon
      apply hne
      rw [hisa, hcon]
      rfl
    · exact Or.inl hisa
  rw [isSome_eq_some_getD hsome, j3]

def recW8b : TermRecord :=
  { id := "X", name := "x", alt_ids := ["X1"], subsets := ["goslim_generic"],
    is_a := ["P"], rels := [("part_of", "Q"), ("regulates", "R")],
    obsolete := false }

/-- Concrete instantiation of the amended C8: one `is_a` parent and one
`part_of` relationship. -/
theorem C8_parent_concatenation_amended_witness :
    recW8b.obsolete = false ∧ hs8.read_to = false ∧
    lookupd hs8.parentDict (rstrip recW8b.id) = none ∧
    recW8b.is_a.map rstrip ++ partOfTargets recW8b.rels ≠ [] ∧
    lookupd (processEvents hs8 (recordEvents recW8b)).parentDict
        (rstrip recW8b.id) =
      some (recW8b.is_a.map rstrip ++ partOfTargets recW8b.rels) := by
  refine ⟨by decide, by decide, by decide, by decide, ?_⟩
  exact C8_parent_concatenation_amended hs8 recW8b (by decide) (by decide)
    (by decide) (by decide)

end GOdata
